import Mathlib

/-!
A verification development for the bridge program in server.js.

The program has two cores:

* a byte-stream frame codec (functions writeMessage and tryParseMessages in
  server.js): messages travel as "Content-Length: N\r\n\r\n" followed by N
  payload bytes;
* a correlation table (the pending Map together with the /rpc handler, the
  per-entry setTimeout, the stdout message dispatch and the exit handler).

Bytes are modelled as natural numbers (each < 256 in practice; the protocol
header is plain ASCII, see section 6 of the design).  The JSON payload layer
(JSON.stringify / JSON.parse, host library functions) is abstracted as a
stringify / parse pair of functions supplied as parameters; the theorems that
need the JSON round trip take it as an explicit hypothesis on the values
involved, which is exactly the "JSON-serializable" precondition of the design.
-/

/-! ## Bytes, ASCII text and decimal digits -/

/-- UTF-8 bytes of an ASCII string (for ASCII text, code points are bytes). -/
def asciiOf (s : String) : List Nat := s.toList.map Char.toNat

/-- ASCII decimal digit test, the byte-level form of the regex class \d. -/
def isDigitB (b : Nat) : Bool := decide (48 ≤ b ∧ b ≤ 57)

/-- Byte-level form of the regex class \s restricted to ASCII
(tab, LF, VT, FF, CR, space); the header of the wire protocol is ASCII. -/
def isWsB (b : Nat) : Bool := decide (b = 9 ∨ b = 10 ∨ b = 11 ∨ b = 12 ∨ b = 13 ∨ b = 32)

/-- Lower-casing of an ASCII byte, for the case-insensitive regex flag. -/
def lowerByte (b : Nat) : Nat := if 65 ≤ b ∧ b ≤ 90 then b + 32 else b

/-- Value of an ASCII decimal digit string, as computed by
parseInt(digits, 10) on the capture group of the Content-Length regex. -/
def digitsToNat (l : List Nat) : Nat := l.foldl (fun a b => a * 10 + (b - 48)) 0

/-- Little-endian base-10 digits of n, with explicit fuel (the fuel n is
always enough since a number has at most n digits for n at least 1). -/
def natDigitsRev (fuel : Nat) (n : Nat) : List Nat :=
  match fuel with
  | 0 => []
  | f + 1 => if n = 0 then [] else n % 10 :: natDigitsRev f (n / 10)

/-- ASCII decimal rendering of a natural number, the byte-level model of the
template interpolation of a number in JavaScript (String(n) for an integer). -/
def natToAscii (n : Nat) : List Nat :=
  if n = 0 then [48] else ((natDigitsRev n n).map (fun d => d + 48)).reverse

/-! ## The frame codec of server.js (tryParseMessages, lines 45-77, and writeMessage, lines 93-98) -/

/-- Index of the first occurrence of the four-byte separator CR LF CR LF in
the buffer; none when the buffer holds no complete separator. -/
def findSep : List Nat → Option Nat
  | [] => none
  | b :: t =>
    if (b :: t).take 4 = [13, 10, 13, 10] then some 0
    else (findSep t).map (fun i => i + 1)

/-- The byte list of the ASCII text Content-Length followed by a colon and
one space, the literal part of the header written by writeMessage. -/
def asciiCL : List Nat := [67, 111, 110, 116, 101, 110, 116, 45, 76, 101, 110, 103, 116, 104, 58, 32]

/-- One attempted match, at the current position, of the regex
Content-Length:\s*(\d+) with the case-insensitive flag: the first fifteen
bytes must spell content-length: up to ASCII case, then any run of
whitespace, then the capture, a non-empty maximal run of decimal digits
whose parseInt value is returned. -/
def matchCLAt (l : List Nat) : Option Nat :=
  if (l.take 15).map lowerByte = asciiOf "content-length:" then
    if ((l.drop 15).dropWhile isWsB).takeWhile isDigitB = [] then none
    else some (digitsToNat (((l.drop 15).dropWhile isWsB).takeWhile isDigitB))
  else none

/-- The regex search header.match tried at every start position from the
left, returning the value of the capture at the first success. -/
def headerNum : List Nat → Option Nat
  | [] => none
  | b :: t =>
    match matchCLAt (b :: t) with
    | some n => some n
    | none => headerNum t

/-- Outcome of decoding one complete frame: the parsed value, or a JSON
parse failure, which the program logs and skips (lines 73-75). -/
inductive DecodeResult (α : Type) where
  | ok (v : α)
  | parseError
deriving DecidableEq

/-- The incremental frame decoder, the loop of tryParseMessages with the
per-message dispatch abstracted into the returned event list: repeatedly
find the first separator; if the text before it has no Content-Length
match, skip past the separator and continue (lines 53-56); if the declared
payload is not yet fully buffered, stop and keep the whole buffer (line
59); otherwise slice out the payload, parse it, record the event, and
continue after the frame (lines 61-75).  Returns the events in order and
the unconsumed remainder of the buffer. -/
def decodeAll {α : Type} (parse : List Nat → Option α) (buf : List Nat) :
    List (DecodeResult α) × List Nat :=
  match hs : findSep buf with
  | none => ([], buf)
  | some idx =>
    match headerNum (buf.take idx) with
    | none => decodeAll parse (buf.drop (idx + 4))
    | some len =>
      if buf.length < idx + 4 + len then ([], buf)
      else
        let ev := match parse ((buf.drop (idx + 4)).take len) with
          | some v => DecodeResult.ok v
          | none => DecodeResult.parseError
        let next := decodeAll parse (buf.drop (idx + 4 + len))
        (ev :: next.1, next.2)
termination_by buf.length
decreasing_by
  · have hne : buf ≠ [] := by
      intro hbe
      subst hbe
      simp [findSep] at hs
    have hpos : 0 < buf.length := List.length_pos.mpr hne
    simp only [List.length_drop]
    omega
  · have hne : buf ≠ [] := by
      intro hbe
      subst hbe
      simp [findSep] at hs
    have hpos : 0 < buf.length := List.length_pos.mpr hne
    simp only [List.length_drop]
    omega

/-- The header text written for a payload of n bytes. -/
def clHeader (n : Nat) : List Nat := asciiCL ++ natToAscii n

/-- The frame written for payload bytes p: the Content-Length header with
the byte length of p, the blank line, and the payload. -/
def mkFrame (p : List Nat) : List Nat :=
  clHeader p.length ++ [13, 10, 13, 10] ++ p

/-- encode of the design: serialize a value and frame it (writeMessage
serializes with JSON.stringify and writes header then payload). -/
def encode {α : Type} (stringify : α → List Nat) (v : α) : List Nat :=
  mkFrame (stringify v)

/-! ## Concrete payload codec and buffers used by the witnesses -/

/-- Sample payload serializer for the witnesses: decimal text of a number. -/
def stringify0 (n : Nat) : List Nat := natToAscii n

/-- Sample payload deserializer for the witnesses: accepts exactly the
non-empty all-digit payloads. -/
def parse0 (bs : List Nat) : Option Nat :=
  if bs ≠ [] ∧ bs.all isDigitB then some (digitsToNat bs) else none

/-- A buffer declaring three payload bytes but holding only two. -/
def bufC2 : List Nat := asciiOf "Content-Length: 3\r\n\r\nab"

/-- A buffer declaring a gigabyte-sized payload, followed by three bytes. -/
def bufC9 : List Nat := asciiOf "Content-Length: 1000000000\r\n\r\nabc"

/-! ## The correlation table (the pending Map, lines 43, 66-72, 119-153) -/

/-- Lookup in an association list, the model of Map.get / Map.has. -/
def assocLookup {κ β : Type} [DecidableEq κ] (k : κ) : List (κ × β) → Option β
  | [] => none
  | e :: t => if e.1 = k then some e.2 else assocLookup k t

/-- Removal of a key, the model of Map.delete. -/
def assocErase {κ β : Type} [DecidableEq κ] (k : κ) (l : List (κ × β)) : List (κ × β) :=
  l.filter (fun e => decide (e.1 ≠ k))

/-- JavaScript identifier values that can appear in the id field of a
message: numbers (modelled as integers) or strings. -/
inductive JsVal
  | num (n : Int)
  | str (s : String)
deriving DecidableEq

/-- String(x) of JavaScript on the modelled identifier values: decimal
text for a number, the string itself for a string. -/
def jsStr : JsVal → String
  | .num n => toString n
  | .str s => s

/-- A decoded message: its id field (none models null or absent) and the
rest of its content, opaque to the bridge. -/
structure Msg where
  id : Option JsVal
  body : String
deriving DecidableEq

/-- A settlement of a promise handle: resolve(msg) or reject(error). -/
inductive Settled
  | resolved (m : Msg)
  | rejected (err : String)
deriving DecidableEq

/-- The mutable state of the bridge around the pending Map: a counter
supplying fresh promise handles (tokens), the pending Map as an
association list from String(id) to the token of its promise, the set of
armed timers (each created by one registration, carrying that
registration's key and token), the record of the first settlement of each
promise handle (a JS promise ignores later settle attempts), and whether
the process is still alive. -/
structure CorrState where
  counter : Nat
  pending : List (String × Nat)
  timers : List (String × Nat)
  settled : List (Nat × Settled)
  alive : Bool
deriving DecidableEq

def initState : CorrState := ⟨0, [], [], [], true⟩

/-- First settlement wins: settling an already-settled handle is a no-op,
exactly the semantics of resolve / reject on a JS promise. -/
def settle (t : Nat) (o : Settled) (st : List (Nat × Settled)) : List (Nat × Settled) :=
  match assocLookup t st with
  | some _ => st
  | none => (t, o) :: st

/-- Outcome of the /rpc handler before any reply arrives. -/
inductive RpcOutcome
  | badRequest (err : String)
  | duplicate
  | registered (t : Nat)
deriving DecidableEq

/-- The /rpc handler (lines 119-144): payload.jsonrpc must be "2.0" (else
400), payload.id must be non-null (else 400), and String(payload.id) must
not already be pending (else 409, state untouched); otherwise a fresh
promise handle is stored under the key and its timeout timer is armed. -/
def postRpc (s : CorrState) (jsonrpc : String) (pid : Option JsVal) :
    RpcOutcome × CorrState :=
  if jsonrpc ≠ "2.0" then (.badRequest "jsonrpc must be 2.0", s)
  else
    match pid with
    | none => (.badRequest "missing id", s)
    | some v =>
      if (assocLookup (jsStr v) s.pending).isSome then (.duplicate, s)
      else
        (.registered s.counter,
          { s with
            counter := s.counter + 1,
            pending := (jsStr v, s.counter) :: s.pending,
            timers := (jsStr v, s.counter) :: s.timers })

/-- Outcome of dispatching one decoded message. -/
inductive DeliverOutcome
  | resolvedCaller (t : Nat)
  | unsolicited
deriving DecidableEq

/-- The dispatch of one decoded message (lines 66-72): when the message has
a non-null id whose String form is a pending key, the entry is deleted and
its promise resolved with the message; every other message is logged as a
notification and changes nothing. -/
def deliver (s : CorrState) (m : Msg) : DeliverOutcome × CorrState :=
  match m.id with
  | none => (.unsolicited, s)
  | some v =>
    match assocLookup (jsStr v) s.pending with
    | none => (.unsolicited, s)
    | some t =>
      (.resolvedCaller t,
        { s with
          pending := assocErase (jsStr v) s.pending,
          settled := settle t (.resolved m) s.settled })

/-- The setTimeout delay of line 143, in milliseconds. -/
def timeoutMs : Nat := 250000

/-- Firing of the timer armed by the registration of token t under key k
(lines 138-143): a timer fires at most once; its closure checks whether k
is still in the pending Map and, if so, deletes that entry and rejects
with a timeout error.  The reject is the one captured by the promise of
token t, the registration that armed this timer. -/
def fireTimer (s : CorrState) (k : String) (t : Nat) : CorrState :=
  if (k, t) ∈ s.timers then
    if (assocLookup k s.pending).isSome then
      { s with
        timers := s.timers.erase (k, t),
        pending := assocErase k s.pending,
        settled := settle t (.rejected "timeout") s.settled }
    else { s with timers := s.timers.erase (k, t) }
  else s

/-- The exit handler (lines 88-91): log and process.exit(1).  No pending
entry is settled; the process just stops. -/
def onExit (s : CorrState) : CorrState := { s with alive := false }

/-- The events of the single-threaded event loop that touch the
correlation state. -/
inductive Step
  | rpc (jsonrpc : String) (pid : Option JsVal)
  | msg (m : Msg)
  | timer (k : String) (t : Nat)
  | exited
deriving DecidableEq

/-- One event of the event loop.  After process.exit nothing runs, so
every step on a dead state is a no-op. -/
def stepRun (s : CorrState) (st : Step) : CorrState :=
  if s.alive = true then
    match st with
    | .rpc j pid => (postRpc s j pid).2
    | .msg m => (deliver s m).2
    | .timer k t => fireTimer s k t
    | .exited => onExit s
  else s

/-- The state after a sequence of events from startup. -/
def runTrace (tr : List Step) : CorrState := tr.foldl stepRun initState

/-- What the caller awaiting token t receives over HTTP (lines 146-152):
the resolved message as the 200 body, a caught rejection as a 504 with
the error detail, or nothing yet while the promise is unsettled. -/
inductive HttpReply
  | ok (m : Msg)
  | gatewayTimeout (detail : String)
deriving DecidableEq

def callerReply (s : CorrState) (t : Nat) : Option HttpReply :=
  (assocLookup t s.settled).map fun o =>
    match o with
    | .resolved m => .ok m
    | .rejected e => .gatewayTimeout e

/-- HTTP status of an immediate /rpc outcome (200 meaning: registered,
response to come later). -/
def rpcStatus : RpcOutcome → Nat
  | .badRequest _ => 400
  | .duplicate => 409
  | .registered _ => 200

def replyStatus : HttpReply → Nat
  | .ok _ => 200
  | .gatewayTimeout _ => 504

/-- The two key-uniqueness invariants: the pending map and the settlement
record each hold at most one entry per key. -/
def GoodKeys (s : CorrState) : Prop :=
  (s.pending.map Prod.fst).Nodup ∧ (s.settled.map Prod.fst).Nodup

/-! ## Concrete states used by the witnesses -/

/-- One registration of key "7" with token 0 in flight, timer armed. -/
def sWit : CorrState := ⟨1, [("7", 0)], [("7", 0)], [], true⟩

/-- Token 0 already resolved, nothing pending, a stale timer run next. -/
def sWit2 : CorrState :=
  ⟨1, [], [], [(0, Settled.resolved ⟨some (JsVal.str "1"), "x"⟩)], true⟩

/-! ## Lemmas about the pieces of the codec -/

theorem natDigitsRev_eq_digits (f n : Nat) (h : n ≤ f) :
    natDigitsRev f n = Nat.digits 10 n := by
  induction f generalizing n with
  | zero =>
      have hn : n = 0 := Nat.le_zero.mp h
      subst hn
      simp [natDigitsRev]
  | succ f ih =>
      by_cases hn : n = 0
      · subst hn; simp [natDigitsRev]
      · have hpos : 0 < n := Nat.pos_of_ne_zero hn
        have hdiv : n / 10 ≤ f := by
          have : n / 10 < n := Nat.div_lt_self hpos (by norm_num)
          omega
        rw [natDigitsRev, if_neg hn, ih _ hdiv, Nat.digits_def' (by norm_num : 1 < 10) hpos]

theorem foldl_digits (l : List Nat) (a : Nat) :
    ((l.map (fun d => d + 48)).reverse).foldl (fun x b => x * 10 + (b - 48)) a
      = a * 10 ^ l.length + Nat.ofDigits 10 l := by
  induction l generalizing a with
  | nil => simp
  | cons d t ih =>
      simp only [List.map_cons, List.reverse_cons, List.foldl_append, List.foldl_cons,
        List.foldl_nil, ih]
      rw [Nat.ofDigits_cons]
      have hd : d + 48 - 48 = d := by omega
      rw [hd, List.length_cons, pow_succ]
      ring

/-- The decimal rendering round trip: the byte-level regex capture of the
decimal text of n parses back to n. -/
theorem digitsToNat_natToAscii (n : Nat) : digitsToNat (natToAscii n) = n := by
  by_cases hn : n = 0
  · subst hn; decide
  · rw [natToAscii, if_neg hn, digitsToNat, foldl_digits,
      natDigitsRev_eq_digits n n le_rfl]
    simpa using Nat.ofDigits_digits 10 n

theorem mem_natToAscii (n b : Nat) (hb : b ∈ natToAscii n) : 48 ≤ b ∧ b ≤ 57 := by
  by_cases hn : n = 0
  · subst hn; simp [natToAscii] at hb; omega
  · rw [natToAscii, if_neg hn] at hb
    rw [List.mem_reverse, List.mem_map] at hb
    obtain ⟨d, hd, rfl⟩ := hb
    rw [natDigitsRev_eq_digits n n le_rfl] at hd
    have := Nat.digits_lt_base (by norm_num : 1 < 10) hd
    omega

theorem natToAscii_ne_nil (n : Nat) : natToAscii n ≠ [] := by
  by_cases hn : n = 0
  · subst hn; simp [natToAscii]
  · rw [natToAscii, if_neg hn]
    simp only [ne_eq, List.reverse_eq_nil_iff, List.map_eq_nil_iff]
    rw [natDigitsRev_eq_digits n n le_rfl]
    exact Nat.digits_ne_nil_iff_ne_zero.mpr hn

theorem findSep_bound (l : List Nat) (i : Nat) (h : findSep l = some i) :
    i + 4 ≤ l.length := by
  induction l generalizing i with
  | nil => simp [findSep] at h
  | cons b t ih =>
      rw [findSep] at h
      split at h
      · rename_i htake
        have hlen : ((b :: t).take 4).length = 4 := by rw [htake]; rfl
        rw [List.length_take] at hlen
        injection h with h
        omega
      · obtain ⟨j, hj, rfl⟩ := Option.map_eq_some'.mp h
        have := ih j hj
        simp only [List.length_cons]
        omega

theorem findSep_append_noCR (hdr l : List Nat) (h : ∀ b ∈ hdr, b ≠ 13) :
    findSep (hdr ++ l) = (findSep l).map (fun i => i + hdr.length) := by
  induction hdr with
  | nil => cases hfl : findSep l <;> simp [hfl]
  | cons b t ih =>
      have hb : b ≠ 13 := h b (by simp)
      have hcond : ¬ ((b :: (t ++ l)).take 4 = [13, 10, 13, 10]) := by
        intro hc
        rw [show (4 : Nat) = 3 + 1 from rfl, List.take_succ_cons] at hc
        exact hb (List.cons_eq_cons.mp hc).1
      rw [List.cons_append, findSep, if_neg hcond,
        ih (fun x hx => h x (by simp [hx]))]
      cases hfl : findSep l
      · simp [hfl]
      · simp [hfl]
        omega

theorem findSep_none_noCR (l : List Nat) (h : ∀ b ∈ l, b ≠ 13) :
    findSep l = none := by
  have := findSep_append_noCR l [] h
  simpa using this

theorem findSep_sep (t : List Nat) : findSep (13 :: 10 :: 13 :: 10 :: t) = some 0 := by
  rw [findSep]
  simp

theorem asciiCL_eq : asciiCL = asciiOf "Content-Length: " := by decide

theorem takeWhile_eq_self_of_all {α : Type} (p : α → Bool) (l : List α)
    (h : ∀ b ∈ l, p b = true) : l.takeWhile p = l := by
  induction l with
  | nil => rfl
  | cons a t ih =>
      rw [List.takeWhile_cons, if_pos (h a (by simp)), ih (fun x hx => h x (by simp [hx]))]

theorem isWsB_of_digit (b : Nat) (h : isDigitB b = true) : isWsB b = false := by
  simp only [isDigitB, decide_eq_true_eq] at h
  simp only [isWsB, decide_eq_false_iff_not]
  omega

theorem matchCLAt_cl (ds : List Nat) (h2 : ∀ b ∈ ds, isDigitB b = true)
    (h1 : ds ≠ []) : matchCLAt (asciiCL ++ ds) = some (digitsToNat ds) := by
  obtain ⟨d, ds', rfl⟩ := List.exists_cons_of_ne_nil h1
  have hd : isDigitB d = true := h2 d (by simp)
  rw [matchCLAt]
  have htake : ((asciiCL ++ (d :: ds')).take 15).map lowerByte = asciiOf "content-length:" := by
    rw [List.take_append_of_le_length (by simp [asciiCL])]
    decide
  have hdrop : (asciiCL ++ (d :: ds')).drop 15 = 32 :: d :: ds' := by
    rw [List.drop_append_of_le_length (by simp [asciiCL])]
    rfl
  have hds : (((asciiCL ++ (d :: ds')).drop 15).dropWhile isWsB).takeWhile isDigitB
      = d :: ds' := by
    rw [hdrop, List.dropWhile_cons, if_pos (by decide), List.dropWhile_cons,
      if_neg (by simp [isWsB_of_digit d hd]), takeWhile_eq_self_of_all _ _ h2]
  rw [if_pos htake, hds, if_neg (by simp)]

theorem headerNum_cl (ds : List Nat) (h2 : ∀ b ∈ ds, isDigitB b = true)
    (h1 : ds ≠ []) : headerNum (asciiCL ++ ds) = some (digitsToNat ds) := by
  have hm := matchCLAt_cl ds h2 h1
  simp only [asciiCL, List.cons_append, List.nil_append] at hm ⊢
  rw [headerNum, hm]

theorem decodeAll_none {α : Type} (parse : List Nat → Option α) (buf : List Nat)
    (h : findSep buf = none) : decodeAll parse buf = ([], buf) := by
  rw [decodeAll.eq_def]
  split
  · rfl
  · rename_i idx h0
    rw [h] at h0
    exact Option.noConfusion h0

theorem decodeAll_skip {α : Type} (parse : List Nat → Option α) (buf : List Nat)
    (idx : Nat) (h : findSep buf = some idx) (hh : headerNum (buf.take idx) = none) :
    decodeAll parse buf = decodeAll parse (buf.drop (idx + 4)) := by
  rw [decodeAll.eq_def]
  split
  · rename_i h0
    rw [h] at h0
    exact Option.noConfusion h0
  · rename_i idx' h0
    rw [h] at h0
    injection h0 with h0
    subst h0
    split
    · rfl
    · rename_i len h1
      rw [hh] at h1
      exact Option.noConfusion h1

theorem decodeAll_incomplete {α : Type} (parse : List Nat → Option α) (buf : List Nat)
    (idx len : Nat) (h : findSep buf = some idx)
    (hh : headerNum (buf.take idx) = some len)
    (hlen : buf.length < idx + 4 + len) : decodeAll parse buf = ([], buf) := by
  rw [decodeAll.eq_def]
  split
  · rename_i h0
    simp [h] at h0
  · rename_i idx' h0
    rw [h] at h0
    injection h0 with h0
    subst h0
    split
    · rename_i h1
      rw [hh] at h1
      exact Option.noConfusion h1
    · rename_i len' h1
      rw [hh] at h1
      injection h1 with h1
      subst h1
      rw [if_pos hlen]

theorem decodeAll_complete {α : Type} (parse : List Nat → Option α) (buf : List Nat)
    (idx len : Nat) (h : findSep buf = some idx)
    (hh : headerNum (buf.take idx) = some len)
    (hlen : ¬ buf.length < idx + 4 + len) :
    decodeAll parse buf =
      ((match parse ((buf.drop (idx + 4)).take len) with
          | some v => DecodeResult.ok v
          | none => DecodeResult.parseError)
        :: (decodeAll parse (buf.drop (idx + 4 + len))).1,
       (decodeAll parse (buf.drop (idx + 4 + len))).2) := by
  rw [decodeAll.eq_def]
  split
  · rename_i h0
    rw [h] at h0
    exact Option.noConfusion h0
  · rename_i idx' h0
    rw [h] at h0
    injection h0 with h0
    subst h0
    split
    · rename_i h1
      rw [hh] at h1
      exact Option.noConfusion h1
    · rename_i len' h1
      rw [hh] at h1
      injection h1 with h1
      subst h1
      rw [if_neg hlen]

theorem clHeader_noCR (n : Nat) : ∀ b ∈ clHeader n, b ≠ 13 := by
  intro b hb
  rw [clHeader, List.mem_append] at hb
  rcases hb with hb | hb
  · revert hb
    revert b
    decide
  · have := mem_natToAscii n b hb
    omega

theorem headerNum_clHeader (n : Nat) : headerNum (clHeader n) = some n := by
  rw [clHeader, headerNum_cl (natToAscii n)
    (fun b hb => by simp [isDigitB]; exact mem_natToAscii n b hb)
    (natToAscii_ne_nil n), digitsToNat_natToAscii]

theorem mkFrame_assoc (p rest : List Nat) :
    mkFrame p ++ rest = clHeader p.length ++ (13 :: 10 :: 13 :: 10 :: (p ++ rest)) := by
  simp [mkFrame, List.append_assoc]

theorem findSep_mkFrame (p rest : List Nat) :
    findSep (mkFrame p ++ rest) = some (clHeader p.length).length := by
  rw [mkFrame_assoc, findSep_append_noCR _ _ (clHeader_noCR p.length), findSep_sep]
  simp

theorem take_mkFrame (p rest : List Nat) :
    (mkFrame p ++ rest).take (clHeader p.length).length = clHeader p.length := by
  rw [mkFrame_assoc, List.take_left]

theorem drop4_mkFrame (p rest : List Nat) :
    (mkFrame p ++ rest).drop ((clHeader p.length).length + 4) = p ++ rest := by
  rw [mkFrame]
  rw [show clHeader p.length ++ [13, 10, 13, 10] ++ p ++ rest
      = (clHeader p.length ++ [13, 10, 13, 10]) ++ (p ++ rest) by
    simp [List.append_assoc]]
  exact List.drop_left' (by simp)

theorem dropAll_mkFrame (p rest : List Nat) :
    (mkFrame p ++ rest).drop ((clHeader p.length).length + 4 + p.length) = rest := by
  exact List.drop_left' (by simp [mkFrame]; omega)

/-- Decoding a buffer that starts with one complete frame of payload p
consumes the frame, records the parse event for p, and continues on the
rest of the buffer. -/
theorem decodeAll_frame {α : Type} (parse : List Nat → Option α) (p rest : List Nat) :
    decodeAll parse (mkFrame p ++ rest) =
      ((match parse p with
          | some v => DecodeResult.ok v
          | none => DecodeResult.parseError) :: (decodeAll parse rest).1,
        (decodeAll parse rest).2) := by
  have hh : headerNum ((mkFrame p ++ rest).take (clHeader p.length).length)
      = some p.length := by
    rw [take_mkFrame, headerNum_clHeader]
  have hlen : ¬ (mkFrame p ++ rest).length < (clHeader p.length).length + 4 + p.length := by
    simp [mkFrame]
    omega
  rw [decodeAll_complete parse _ _ p.length (findSep_mkFrame p rest) hh hlen,
    drop4_mkFrame, dropAll_mkFrame, List.take_left]

theorem decodeAll_nil {α : Type} (parse : List Nat → Option α) :
    decodeAll parse [] = ([], []) :=
  decodeAll_none parse [] rfl

theorem mkFrame_eq (p : List Nat) :
    mkFrame p = clHeader p.length ++ (13 :: 10 :: 13 :: 10 :: p) := by
  have := mkFrame_assoc p []
  simpa using this

theorem length_mkFrame (p : List Nat) :
    (mkFrame p).length = (clHeader p.length).length + 4 + p.length := by
  rw [mkFrame_eq]
  simp
  omega

/-- Every proper prefix of an encoded frame decodes to no event at all,
with the whole prefix retained as the unconsumed remainder. -/
theorem decodeAll_prefix_retained {α : Type} (parse : List Nat → Option α)
    (p : List Nat) (k : Nat) (hk : k < (mkFrame p).length) :
    decodeAll parse ((mkFrame p).take k) = ([], (mkFrame p).take k) := by
  have hlenf := length_mkFrame p
  by_cases h1 : k ≤ (clHeader p.length).length
  · rw [mkFrame_eq, List.take_append_of_le_length h1]
    apply decodeAll_none
    apply findSep_none_noCR
    intro b hb
    exact clHeader_noCR p.length b (List.take_subset k _ hb)
  · by_cases h2 : k < (clHeader p.length).length + 4
    · rw [mkFrame_eq, List.take_append_eq_append_take,
        List.take_of_length_le (by omega)]
      apply decodeAll_none
      rw [findSep_append_noCR _ _ (clHeader_noCR p.length)]
      have hj : k - (clHeader p.length).length = 1 ∨
          k - (clHeader p.length).length = 2 ∨
          k - (clHeader p.length).length = 3 := by omega
      rcases hj with hj | hj | hj <;> rw [hj]
      · rw [show (13 :: 10 :: 13 :: 10 :: p).take 1 = [13] from rfl]
        rw [show findSep [13] = none by decide]
        rfl
      · rw [show (13 :: 10 :: 13 :: 10 :: p).take 2 = [13, 10] from rfl]
        rw [show findSep [13, 10] = none by decide]
        rfl
      · rw [show (13 :: 10 :: 13 :: 10 :: p).take 3 = [13, 10, 13] from rfl]
        rw [show findSep [13, 10, 13] = none by decide]
        rfl
    · have htake : (mkFrame p).take k
          = clHeader p.length ++ (13 :: 10 :: 13 :: 10 :: p.take (k - (clHeader p.length).length - 4)) := by
        rw [mkFrame_eq, List.take_append_eq_append_take,
          List.take_of_length_le (by omega)]
        congr 1
        have h4 : k - (clHeader p.length).length
            = (k - (clHeader p.length).length - 4) + 4 := by omega
        rw [h4]
        rfl
      have hsep : findSep ((mkFrame p).take k) = some (clHeader p.length).length := by
        rw [htake, findSep_append_noCR _ _ (clHeader_noCR p.length), findSep_sep]
        simp
      have hh : headerNum (((mkFrame p).take k).take (clHeader p.length).length)
          = some p.length := by
        rw [htake, List.take_left, headerNum_clHeader]
      apply decodeAll_incomplete parse _ _ p.length hsep hh
      rw [List.length_take]
      omega

/-! ## Claims C1 to C4: the frame codec -/

/-- C1: feeding the concatenation of the encodings of any finite list of
values to the decoder as one buffer yields exactly those values, in order,
as ok events, with an empty remaining buffer; the single-value case is the
round trip decode_all (encode V) = [V] of the design.  A value being
JSON-serializable is rendered as the hypothesis that parse inverts
stringify on it. -/
theorem C1_concat_decode {α : Type} (parse : List Nat → Option α)
    (stringify : α → List Nat) (vs : List α)
    (h : ∀ v ∈ vs, parse (stringify v) = some v) :
    decodeAll parse ((vs.map (encode stringify)).flatten)
      = (vs.map DecodeResult.ok, []) := by
  induction vs with
  | nil => simpa using decodeAll_nil parse
  | cons v t ih =>
      rw [List.map_cons, List.flatten_cons, encode, decodeAll_frame,
        h v (by simp), ih (fun x hx => h x (by simp [hx])), List.map_cons]

/-- C2: when the separator is found with a valid Content-Length n but fewer
than n payload bytes follow it, the decoder stops scanning, produces no
event, and retains the whole buffer from the start of that header onward
unchanged; consequently every proper prefix of an encoded frame (any split
of the frame into chunks at any byte boundary, before the final chunk)
yields no value and is retained verbatim, and the completed buffer yields
the value exactly once with empty remainder. -/
theorem C2_incomplete_frame_retained {α : Type} (parse : List Nat → Option α)
    (stringify : α → List Nat) :
    (∀ (buf : List Nat) (idx n : Nat), findSep buf = some idx →
        headerNum (buf.take idx) = some n → buf.length < idx + 4 + n →
        decodeAll parse buf = ([], buf)) ∧
    (∀ v : α, parse (stringify v) = some v →
        (∀ k, k < (encode stringify v).length →
            decodeAll parse ((encode stringify v).take k)
              = ([], (encode stringify v).take k)) ∧
        decodeAll parse (encode stringify v) = ([DecodeResult.ok v], [])) := by
  constructor
  · exact fun buf idx n h hh hl => decodeAll_incomplete parse buf idx n h hh hl
  · intro v hv
    constructor
    · intro k hk
      exact decodeAll_prefix_retained parse (stringify v) k hk
    · have h := decodeAll_frame parse (stringify v) []
      rw [List.append_nil, decodeAll_nil] at h
      rw [encode, h, hv]

/-- C3: a header block whose text contains no Content-Length match is
discarded by skipping past the separator, no event is produced for it and
no failure is raised, and scanning continues; in particular a garbage
header block followed by a valid frame yields only the value of that
frame. -/
theorem C3_garbage_header_skipped {α : Type} (parse : List Nat → Option α)
    (stringify : α → List Nat) :
    (∀ (buf : List Nat) (idx : Nat), findSep buf = some idx →
        headerNum (buf.take idx) = none →
        decodeAll parse buf = decodeAll parse (buf.drop (idx + 4))) ∧
    (∀ (g : List Nat) (v : α), (∀ b ∈ g, b ≠ 13) → headerNum g = none →
        parse (stringify v) = some v →
        decodeAll parse (g ++ 13 :: 10 :: 13 :: 10 :: encode stringify v)
          = ([DecodeResult.ok v], [])) := by
  constructor
  · exact fun buf idx h hh => decodeAll_skip parse buf idx h hh
  · intro g v hg hh hv
    have hsep : findSep (g ++ 13 :: 10 :: 13 :: 10 :: encode stringify v)
        = some g.length := by
      rw [findSep_append_noCR _ _ hg, findSep_sep]
      simp
    have htk : (g ++ 13 :: 10 :: 13 :: 10 :: encode stringify v).take g.length = g :=
      List.take_left g _
    rw [decodeAll_skip parse _ g.length hsep (by rw [htk]; exact hh)]
    have hdrop : (g ++ 13 :: 10 :: 13 :: 10 :: encode stringify v).drop (g.length + 4)
        = encode stringify v := by
      rw [show g ++ 13 :: 10 :: 13 :: 10 :: encode stringify v
          = (g ++ [13, 10, 13, 10]) ++ encode stringify v by simp]
      exact List.drop_left' (by simp)
    rw [hdrop, encode]
    have h := decodeAll_frame parse (stringify v) []
    rw [List.append_nil, decodeAll_nil] at h
    rw [h, hv]

/-- C4: a complete frame whose payload does not parse yields a parseError
event (reported, not raised), the buffer advances past the whole frame, and
decoding of the frames that follow in the same buffer is unaffected. -/
theorem C4_parse_failure_skips_frame {α : Type} (parse : List Nat → Option α)
    (p rest : List Nat) (hp : parse p = none) :
    decodeAll parse (mkFrame p ++ rest)
      = (DecodeResult.parseError :: (decodeAll parse rest).1,
         (decodeAll parse rest).2) := by
  rw [decodeAll_frame, hp]

theorem C1_witness :
    decodeAll parse0 (([3, 7].map (encode stringify0)).flatten)
      = ([DecodeResult.ok 3, DecodeResult.ok 7], []) :=
  C1_concat_decode parse0 stringify0 [3, 7] (by decide)

theorem C2_witness :
    (decodeAll parse0 ((encode stringify0 5).take 3)
        = ([], (encode stringify0 5).take 3) ∧
      decodeAll parse0 (encode stringify0 5) = ([DecodeResult.ok 5], [])) ∧
    decodeAll parse0 bufC2 = ([], bufC2) := by
  constructor
  · have h := (C2_incomplete_frame_retained parse0 stringify0).2 5 (by decide)
    exact ⟨h.1 3 (by decide), h.2⟩
  · exact (C2_incomplete_frame_retained parse0 stringify0).1 bufC2 17 3
      (by decide) (by decide) (by decide)

theorem C3_witness :
    decodeAll parse0
        (asciiOf "X-Garbage: yes" ++ 13 :: 10 :: 13 :: 10 :: encode stringify0 9)
      = ([DecodeResult.ok 9], []) :=
  (C3_garbage_header_skipped parse0 stringify0).2 (asciiOf "X-Garbage: yes") 9
    (by decide) (by decide) (by decide)

theorem C4_witness :
    decodeAll parse0 (mkFrame [65] ++ encode stringify0 2)
      = (DecodeResult.parseError :: (decodeAll parse0 (encode stringify0 2)).1,
         (decodeAll parse0 (encode stringify0 2)).2) :=
  C4_parse_failure_skips_frame parse0 [65] (encode stringify0 2) (by decide)

/-! ## Claim C9: Content-Length numeric semantics, no size bound -/

/-- C9 counterexample: a header declaring 1000000000 bytes, far above the
only configured size in the program (the 1 MiB express body limit), is not
treated as a protocol error: the decoder produces no event and retains the
whole buffer, waiting for the billion declared bytes. -/
theorem C9_counterexample :
    1000000000 > 1048576 ∧ decodeAll parse0 bufC9 = ([], bufC9) := by
  constructor
  · decide
  · exact decodeAll_incomplete parse0 bufC9 26 1000000000
      (by decide) (by decide) (by decide)

/-- C9 amended: the Content-Length value is parsed as a non-negative
base-10 integer (the decimal header of any n is read back as exactly n),
but no maximum message size exists: for every declared length n, however
large, a buffer lacking n payload bytes is retained unchanged while the
decoder waits for more input, rather than any frame being rejected as a
protocol error. -/
theorem C9_amended {α : Type} (parse : List Nat → Option α) :
    (∀ n : Nat, headerNum (clHeader n) = some n) ∧
    (∀ (buf : List Nat) (idx n : Nat), findSep buf = some idx →
        headerNum (buf.take idx) = some n → buf.length < idx + 4 + n →
        decodeAll parse buf = ([], buf)) :=
  ⟨headerNum_clHeader,
   fun buf idx n h hh hl => decodeAll_incomplete parse buf idx n h hh hl⟩

theorem C9_witness :
    headerNum (clHeader 1000000000) = some 1000000000 ∧
    decodeAll parse0 bufC9 = ([], bufC9) :=
  ⟨(C9_amended parse0).1 1000000000,
   (C9_amended parse0).2 bufC9 26 1000000000 (by decide) (by decide) (by decide)⟩

/-! ## Lemmas about the correlation table -/

theorem assocLookup_eq_none_iff {κ β : Type} [DecidableEq κ] (k : κ) (l : List (κ × β)) :
    assocLookup k l = none ↔ k ∉ l.map Prod.fst := by
  induction l with
  | nil => simp [assocLookup]
  | cons e t ih =>
      rw [assocLookup]
      by_cases hk : e.1 = k
      · simp [hk]
      · simp only [if_neg hk, ih, List.map_cons, List.mem_cons]
        constructor
        · intro h hm
          rcases hm with hm | hm
          · exact hk hm.symm
          · exact h hm
        · intro h hm
          exact h (Or.inr hm)

theorem assocLookup_erase_self {κ β : Type} [DecidableEq κ] (k : κ) (l : List (κ × β)) :
    assocLookup k (assocErase k l) = none := by
  induction l with
  | nil => rfl
  | cons e t ih =>
      rw [assocErase, List.filter_cons]
      by_cases hk : e.1 = k
      · rw [if_neg (by simp [hk])]
        exact ih
      · rw [if_pos (by simp [hk]), assocLookup, if_neg hk]
        exact ih

theorem assocLookup_settle_isSome (t u : Nat) (o : Settled) (st : List (Nat × Settled))
    (h : (assocLookup t st).isSome = true) :
    assocLookup t (settle u o st) = assocLookup t st := by
  rw [settle]
  cases hl : assocLookup u st with
  | some x => rfl
  | none =>
      have hne : u ≠ t := by
        intro he
        subst he
        rw [hl] at h
        simp at h
      show assocLookup t ((u, o) :: st) = assocLookup t st
      rw [assocLookup, if_neg hne]

theorem settle_keys_nodup (t : Nat) (o : Settled) (st : List (Nat × Settled))
    (h : (st.map Prod.fst).Nodup) : ((settle t o st).map Prod.fst).Nodup := by
  rw [settle]
  cases hl : assocLookup t st with
  | some x => exact h
  | none =>
      show ((((t, o) :: st)).map Prod.fst).Nodup
      rw [List.map_cons]
      exact List.nodup_cons.mpr ⟨(assocLookup_eq_none_iff t st).mp hl, h⟩

theorem stepRun_rpc (s : CorrState) (j : String) (pid : Option JsVal)
    (h : s.alive = true) : stepRun s (.rpc j pid) = (postRpc s j pid).2 := by
  rw [stepRun.eq_def, if_pos h]

theorem stepRun_msg (s : CorrState) (m : Msg) (h : s.alive = true) :
    stepRun s (.msg m) = (deliver s m).2 := by
  rw [stepRun.eq_def, if_pos h]

theorem stepRun_timer (s : CorrState) (k : String) (t : Nat) (h : s.alive = true) :
    stepRun s (.timer k t) = fireTimer s k t := by
  rw [stepRun.eq_def, if_pos h]

theorem stepRun_exited (s : CorrState) (h : s.alive = true) :
    stepRun s .exited = onExit s := by
  rw [stepRun.eq_def, if_pos h]

theorem stepRun_dead (s : CorrState) (st : Step) (h : s.alive = false) :
    stepRun s st = s := by
  rw [stepRun.eq_def, if_neg (by simp [h])]

theorem postRpc_cases (s : CorrState) (j : String) (pid : Option JsVal) :
    (postRpc s j pid).2 = s ∨
    ∃ v, pid = some v ∧ assocLookup (jsStr v) s.pending = none ∧
      (postRpc s j pid).2 =
        { s with
          counter := s.counter + 1,
          pending := (jsStr v, s.counter) :: s.pending,
          timers := (jsStr v, s.counter) :: s.timers } := by
  rw [postRpc.eq_def]
  split
  · exact Or.inl rfl
  · split
    · exact Or.inl rfl
    · rename_i v
      split
      · exact Or.inl rfl
      · rename_i hns
        right
        refine ⟨v, rfl, ?_, rfl⟩
        cases hl : assocLookup (jsStr v) s.pending with
        | none => rfl
        | some t => rw [hl] at hns; simp at hns

theorem deliver_cases (s : CorrState) (m : Msg) :
    (deliver s m).2 = s ∨
    ∃ v t, m.id = some v ∧ assocLookup (jsStr v) s.pending = some t ∧
      (deliver s m).2 =
        { s with
          pending := assocErase (jsStr v) s.pending,
          settled := settle t (.resolved m) s.settled } := by
  rw [deliver]
  split
  · exact Or.inl rfl
  · rename_i v hv
    split
    · exact Or.inl rfl
    · rename_i t ht
      exact Or.inr ⟨v, t, hv, ht, rfl⟩

theorem fireTimer_cases (s : CorrState) (k : String) (t : Nat) :
    fireTimer s k t = s ∨
    fireTimer s k t = { s with timers := s.timers.erase (k, t) } ∨
    fireTimer s k t =
      { s with
        timers := s.timers.erase (k, t),
        pending := assocErase k s.pending,
        settled := settle t (.rejected "timeout") s.settled } := by
  rw [fireTimer]
  split
  · split
    · exact Or.inr (Or.inr rfl)
    · exact Or.inr (Or.inl rfl)
  · exact Or.inl rfl

/-- Every event either leaves the pending map alone, inserts one entry
under a key that was absent, or deletes one key; and either leaves the
settlement record alone or settles one handle. -/
theorem stepRun_fields (s : CorrState) (st : Step) :
    ((stepRun s st).pending = s.pending ∨
      (∃ k t, assocLookup k s.pending = none ∧
        (stepRun s st).pending = (k, t) :: s.pending) ∨
      (∃ k, (stepRun s st).pending = assocErase k s.pending)) ∧
    ((stepRun s st).settled = s.settled ∨
      ∃ t o, (stepRun s st).settled = settle t o s.settled) := by
  by_cases ha : s.alive = true
  · cases st with
    | rpc j pid =>
        rw [stepRun_rpc s j pid ha]
        rcases postRpc_cases s j pid with h | ⟨v, hv, hl, h⟩ <;> rw [h]
        · exact ⟨Or.inl rfl, Or.inl rfl⟩
        · exact ⟨Or.inr (Or.inl ⟨jsStr v, s.counter, hl, rfl⟩), Or.inl rfl⟩
    | msg m =>
        rw [stepRun_msg s m ha]
        rcases deliver_cases s m with h | ⟨v, t, hid, hl, h⟩ <;> rw [h]
        · exact ⟨Or.inl rfl, Or.inl rfl⟩
        · exact ⟨Or.inr (Or.inr ⟨jsStr v, rfl⟩),
            Or.inr ⟨t, Settled.resolved m, rfl⟩⟩
    | timer k t =>
        rw [stepRun_timer s k t ha]
        rcases fireTimer_cases s k t with h | h | h <;> rw [h]
        · exact ⟨Or.inl rfl, Or.inl rfl⟩
        · exact ⟨Or.inl rfl, Or.inl rfl⟩
        · exact ⟨Or.inr (Or.inr ⟨k, rfl⟩),
            Or.inr ⟨t, Settled.rejected "timeout", rfl⟩⟩
    | exited =>
        rw [stepRun_exited s ha]
        exact ⟨Or.inl rfl, Or.inl rfl⟩
  · have ha' : s.alive = false := by simpa using ha
    rw [stepRun_dead s st ha']
    exact ⟨Or.inl rfl, Or.inl rfl⟩

theorem goodKeys_step (s : CorrState) (st : Step) (h : GoodKeys s) :
    GoodKeys (stepRun s st) := by
  obtain ⟨h1, h2⟩ := h
  obtain ⟨hp, hs'⟩ := stepRun_fields s st
  constructor
  · rcases hp with h | ⟨k, t, hl, h⟩ | ⟨k, h⟩
    · rw [h]; exact h1
    · rw [h, List.map_cons]
      exact List.nodup_cons.mpr ⟨(assocLookup_eq_none_iff k s.pending).mp hl, h1⟩
    · rw [h]
      exact List.Nodup.sublist
        (List.Sublist.map Prod.fst (List.filter_sublist s.pending)) h1
  · rcases hs' with h | ⟨t, o, h⟩
    · rw [h]; exact h2
    · rw [h]; exact settle_keys_nodup t o s.settled h2

theorem goodKeys_runTrace (tr : List Step) : GoodKeys (runTrace tr) := by
  rw [runTrace]
  have hgen : ∀ s, GoodKeys s → GoodKeys (tr.foldl stepRun s) := by
    induction tr with
    | nil => exact fun s h => h
    | cons st t ih => exact fun s h => ih _ (goodKeys_step s st h)
  refine hgen initState ?_
  constructor <;> simp [initState]

/-! ## Claims C5 to C8 and C10: the correlation table -/

/-- C5: at most one live correlation entry per string-normalized key: a
POST /rpc whose String(id) is already pending returns the duplicate
outcome (HTTP 409) with the state completely untouched (no overwrite);
along every trace the pending map never holds two entries with the same
key; and once a key has been freed, by a matching reply resolving it or by
its timer expiring it, a registration under that key succeeds again. -/
theorem C5_duplicate_rejected :
    (∀ (s : CorrState) (v : JsVal),
        (assocLookup (jsStr v) s.pending).isSome = true →
        postRpc s "2.0" (some v) = (RpcOutcome.duplicate, s)) ∧
    rpcStatus RpcOutcome.duplicate = 409 ∧
    (∀ tr : List Step, ((runTrace tr).pending.map Prod.fst).Nodup) ∧
    (∀ (s : CorrState) (v : JsVal),
        assocLookup (jsStr v) s.pending = none →
        (postRpc s "2.0" (some v)).1 = RpcOutcome.registered s.counter) ∧
    (∀ (s : CorrState) (m : Msg) (v : JsVal) (t : Nat),
        m.id = some v → assocLookup (jsStr v) s.pending = some t →
        assocLookup (jsStr v) ((deliver s m).2).pending = none) ∧
    (∀ (s : CorrState) (k : String) (t : Nat),
        (k, t) ∈ s.timers → (assocLookup k s.pending).isSome = true →
        assocLookup k (fireTimer s k t).pending = none) := by
  refine ⟨?_, rfl, fun tr => (goodKeys_runTrace tr).1, ?_, ?_, ?_⟩
  · intro s v h
    simp [postRpc.eq_def, h]
  · intro s v h
    simp [postRpc.eq_def, h]
  · intro s m v t hid hl
    simp [deliver, hid, hl, assocLookup_erase_self]
  · intro s k t ht hp
    rw [fireTimer, if_pos ht, if_pos hp]
    exact assocLookup_erase_self k s.pending

/-- C6: correlation-key equality is taken on the String form of the id: a
registration made under the string key "7" is resolved by an inbound
message whose id is the number 7 (both normalize to the key "7"), the
resolved message reaches that caller as the 200 body, and the dispatch is
total on any mix of id types (every message either resolves some pending
token or is classified unsolicited). -/
theorem C6_string_normalized_ids (s : CorrState) (b : String)
    (hfree : assocLookup "7" s.pending = none)
    (hfresh : assocLookup s.counter s.settled = none) :
    jsStr (JsVal.num 7) = jsStr (JsVal.str "7") ∧
    (postRpc s "2.0" (some (JsVal.str "7"))).1 = RpcOutcome.registered s.counter ∧
    (deliver (postRpc s "2.0" (some (JsVal.str "7"))).2
        ⟨some (JsVal.num 7), b⟩).1 = DeliverOutcome.resolvedCaller s.counter ∧
    callerReply
        (deliver (postRpc s "2.0" (some (JsVal.str "7"))).2
          ⟨some (JsVal.num 7), b⟩).2 s.counter
      = some (HttpReply.ok ⟨some (JsVal.num 7), b⟩) ∧
    (∀ (u : CorrState) (m : Msg),
        (deliver u m).1 = DeliverOutcome.unsolicited ∨
        ∃ t, (deliver u m).1 = DeliverOutcome.resolvedCaller t) := by
  have h7 : jsStr (JsVal.num 7) = "7" := by decide
  have hreg : postRpc s "2.0" (some (JsVal.str "7"))
      = (RpcOutcome.registered s.counter,
         { s with
           counter := s.counter + 1,
           pending := ("7", s.counter) :: s.pending,
           timers := ("7", s.counter) :: s.timers }) := by
    simp [postRpc.eq_def, jsStr, hfree]
  refine ⟨by decide, by rw [hreg], ?_, ?_, ?_⟩
  · rw [hreg]
    simp [deliver, h7, assocLookup]
  · rw [hreg]
    simp [deliver, h7, assocLookup, callerReply, settle, hfresh]
  · intro u m
    rcases hm : m.id with _ | v
    · exact Or.inl (by simp [deliver, hm])
    · cases hl : assocLookup (jsStr v) u.pending
      · exact Or.inl (by simp [deliver, hm, hl])
      · rename_i t
        exact Or.inr ⟨t, by simp [deliver, hm, hl]⟩

/-- C7: a registered key whose timer fires while the key is still pending
(no matching reply within the 250000 ms deadline) is removed from the
table and its caller receives the 504 gateway-timeout failure carrying the
timeout detail; a message matching that key arriving afterwards finds
nothing pending, is classified unsolicited, and leaves the state
unchanged. -/
theorem C7_timeout (s : CorrState) (k : String) (t : Nat)
    (halive : s.alive = true)
    (htimer : (k, t) ∈ s.timers)
    (hpend : (assocLookup k s.pending).isSome = true)
    (hfresh : assocLookup t s.settled = none) :
    timeoutMs = 250 * 1000 ∧
    assocLookup k (stepRun s (Step.timer k t)).pending = none ∧
    callerReply (stepRun s (Step.timer k t)) t
      = some (HttpReply.gatewayTimeout "timeout") ∧
    replyStatus (HttpReply.gatewayTimeout "timeout") = 504 ∧
    (∀ (m : Msg) (v : JsVal), m.id = some v → jsStr v = k →
        deliver (stepRun s (Step.timer k t)) m
          = (DeliverOutcome.unsolicited, stepRun s (Step.timer k t))) := by
  have hstep : stepRun s (Step.timer k t) = fireTimer s k t :=
    stepRun_timer s k t halive
  have hft : fireTimer s k t =
      { s with
        timers := s.timers.erase (k, t),
        pending := assocErase k s.pending,
        settled := settle t (.rejected "timeout") s.settled } := by
    rw [fireTimer, if_pos htimer, if_pos hpend]
  refine ⟨rfl, ?_, ?_, rfl, ?_⟩
  · rw [hstep, hft]
    exact assocLookup_erase_self k s.pending
  · rw [hstep, hft]
    simp [callerReply, settle, hfresh, assocLookup]
  · intro m v hid hk
    rw [hstep, hft]
    simp [deliver, hid, hk, assocLookup_erase_self]

/-- C10: each registration's completion handle is fulfilled at most once:
the settlement record never holds two settlements for the same handle
along any trace, and once a handle is settled (resolution or timeout
rejection) no later event of any kind, a stale timer firing or a second
matching reply included, changes what that caller receives; with the
option of a handle never settling at all, exactly one of resolution,
timeout rejection, or never-fulfilled befalls every registration. -/
theorem C10_at_most_once :
    (∀ tr : List Step, ((runTrace tr).settled.map Prod.fst).Nodup) ∧
    (∀ (s : CorrState) (t : Nat) (st : Step),
        (assocLookup t s.settled).isSome = true →
        callerReply (stepRun s st) t = callerReply s t) := by
  constructor
  · exact fun tr => (goodKeys_runTrace tr).2
  · intro s t st h
    obtain ⟨-, hs'⟩ := stepRun_fields s st
    rcases hs' with he | ⟨u, o, he⟩
    · rw [callerReply, callerReply, he]
    · rw [callerReply, callerReply, he, assocLookup_settle_isSome t u o s.settled h]

/-- C8 counterexample: register the id "1", then let the subprocess exit:
the entry is still pending and the settlement record is empty, so the
pending caller was never unblocked with any subprocess-terminated
failure (the claimed rejection of every pending entry does not happen). -/
theorem C8_counterexample :
    (runTrace [Step.rpc "2.0" (some (JsVal.str "1")), Step.exited]).pending
      = [("1", 0)] ∧
    (runTrace [Step.rpc "2.0" (some (JsVal.str "1")), Step.exited]).settled = [] ∧
    (runTrace [Step.rpc "2.0" (some (JsVal.str "1")), Step.exited]).alive = false := by
  decide

/-- C8 amended: on subprocess exit the bridge simply terminates the whole
process: afterwards it is not alive and no further event has any effect,
so in particular no new call is accepted; but the pending entries are not
individually rejected, they are left exactly as they were, never settled,
and their callers are dropped with the process. -/
theorem C8_amended (s : CorrState) (st : Step) :
    (stepRun s Step.exited).alive = false ∧
    (stepRun s Step.exited).pending = s.pending ∧
    (stepRun s Step.exited).settled = s.settled ∧
    stepRun (stepRun s Step.exited) st = stepRun s Step.exited := by
  by_cases ha : s.alive = true
  · rw [stepRun_exited s ha]
    exact ⟨rfl, rfl, rfl, stepRun_dead _ st rfl⟩
  · have ha' : s.alive = false := by simpa using ha
    rw [stepRun_dead s Step.exited ha']
    exact ⟨ha', rfl, rfl, stepRun_dead s st ha'⟩

theorem C5_witness :
    postRpc sWit "2.0" (some (JsVal.str "7")) = (RpcOutcome.duplicate, sWit) ∧
    ((runTrace [Step.rpc "2.0" (some (JsVal.str "1"))]).pending.map Prod.fst).Nodup ∧
    (postRpc initState "2.0" (some (JsVal.str "7"))).1
      = RpcOutcome.registered initState.counter ∧
    assocLookup "7" ((deliver sWit ⟨some (JsVal.num 7), "r"⟩).2).pending = none ∧
    assocLookup "7" (fireTimer sWit "7" 0).pending = none :=
  ⟨C5_duplicate_rejected.1 sWit (JsVal.str "7") (by decide),
   C5_duplicate_rejected.2.2.1 [Step.rpc "2.0" (some (JsVal.str "1"))],
   C5_duplicate_rejected.2.2.2.1 initState (JsVal.str "7") (by decide),
   C5_duplicate_rejected.2.2.2.2.1 sWit ⟨some (JsVal.num 7), "r"⟩ (JsVal.num 7) 0
     rfl (by decide),
   C5_duplicate_rejected.2.2.2.2.2 sWit "7" 0 (by decide) (by decide)⟩

theorem C6_witness :
    jsStr (JsVal.num 7) = jsStr (JsVal.str "7") ∧
    (postRpc initState "2.0" (some (JsVal.str "7"))).1
      = RpcOutcome.registered initState.counter ∧
    (deliver (postRpc initState "2.0" (some (JsVal.str "7"))).2
        ⟨some (JsVal.num 7), "r"⟩).1
      = DeliverOutcome.resolvedCaller initState.counter ∧
    callerReply
        (deliver (postRpc initState "2.0" (some (JsVal.str "7"))).2
          ⟨some (JsVal.num 7), "r"⟩).2 initState.counter
      = some (HttpReply.ok ⟨some (JsVal.num 7), "r"⟩) ∧
    (∀ (u : CorrState) (m : Msg),
        (deliver u m).1 = DeliverOutcome.unsolicited ∨
        ∃ t, (deliver u m).1 = DeliverOutcome.resolvedCaller t) :=
  C6_string_normalized_ids initState "r" (by decide) (by decide)

theorem C7_witness :
    timeoutMs = 250 * 1000 ∧
    assocLookup "7" (stepRun sWit (Step.timer "7" 0)).pending = none ∧
    callerReply (stepRun sWit (Step.timer "7" 0)) 0
      = some (HttpReply.gatewayTimeout "timeout") ∧
    replyStatus (HttpReply.gatewayTimeout "timeout") = 504 ∧
    (∀ (m : Msg) (v : JsVal), m.id = some v → jsStr v = "7" →
        deliver (stepRun sWit (Step.timer "7" 0)) m
          = (DeliverOutcome.unsolicited, stepRun sWit (Step.timer "7" 0))) :=
  C7_timeout sWit "7" 0 rfl (by decide) (by decide) (by decide)

theorem C10_witness :
    callerReply (stepRun sWit2 (Step.timer "1" 0)) 0 = callerReply sWit2 0 :=
  C10_at_most_once.2 sWit2 0 (Step.timer "1" 0) (by decide)
